import Mathlib

/-!
Shallow embedding of the arithmetic-expression evaluator
(tokenizer / precedence-climbing parser / tree evaluator) of this
repository (src/chapter-2/src/parsemaths/{token,tokenizer,parser,ast}.rs,
with the token and precedence types shared with src/src/parsemaths/token.rs).

Modelling conventions:
* Rust `f64` values are modelled as `ℚ`.  Every numeric literal and every
  arithmetic result exercised by the claims is a small decimal, represented
  exactly by both `f64` and `ℚ`.  `f64::powf` is modelled by `powf` below,
  exact for integer exponents (the only exponents any claim evaluates).
* The `Peekable<Chars>` iterator state of the tokenizer is the remaining
  `List Char` of the input.
* `Option<Token>` returned by `Tokenizer::next`, together with the panic
  that `number.parse::<f64>().unwrap()` can raise, is modelled by
  `TokStep`: a produced token, "no token" (Rust `None`), or a fatal abort
  (`crash`, the `unwrap` panic on a malformed literal).
* `Result<_, ParseError>` plus the propagated panic is modelled by `Res`.
  The Rust parser's unbounded recursion is given explicit fuel; running out
  of fuel is the extra outcome `Res.outOfFuel`, an artifact of the
  embedding which the fuel-adequacy theorem shows never occurs once the
  fuel exceeds the input length.
* Rust `format!`/`{:?}` message strings are reproduced literally, with the
  `Debug` form of a token given by `debugToken` (the numeric payload of a
  `Num` token is not rendered inside the message; no claim depends on it).
-/

/-- Model of `Token` (src/src/parsemaths/token.rs). -/
inductive Token where
  | Add
  | Subtract
  | Multiply
  | Divide
  | Caret
  | LeftParen
  | RightParen
  | Num : ℚ → Token
  | EoF
deriving DecidableEq

/-- Model of `OperPrec` (src/src/parsemaths/token.rs): precedence levels,
lowest to highest, ordered by declaration order via derived `PartialOrd`. -/
inductive OperPrec where
  | DefaultZero
  | AddSub
  | MulDiv
  | Power
  | Negative
deriving DecidableEq

/-- Discriminant of an `OperPrec` value; the derived Rust `PartialOrd`
compares enum variants by discriminant. -/
def OperPrec.toNat : OperPrec → Nat
  | .DefaultZero => 0
  | .AddSub => 1
  | .MulDiv => 2
  | .Power => 3
  | .Negative => 4

/-- The `<` of the derived `PartialOrd` on `OperPrec`. -/
def OperPrec.lt (a b : OperPrec) : Bool :=
  a.toNat < b.toNat

/-- Model of `Token::get_oper_prec` (src/src/parsemaths/token.rs). -/
def Token.get_oper_prec : Token → OperPrec
  | .Add | .Subtract => .AddSub
  | .Multiply | .Divide => .MulDiv
  | .Caret => .Power
  | _ => .DefaultZero

/-!
## Tokenizer (src/chapter-2/src/parsemaths/tokenizer.rs)
-/

/-- The numeric-literal accumulation loop of `Tokenizer::next`: starting
from the already-accumulated characters `acc`, keep consuming characters
while they are digits or a decimal point; on an open parenthesis return
`none` (Rust `return None`) leaving the parenthesis unconsumed; otherwise
stop.  Returns the accumulated text (or `none`) and the remaining input. -/
def scanNumber : List Char → List Char → Option (List Char) × List Char
  | acc, [] => (some acc, [])
  | acc, c :: rest =>
    if c.isDigit || c = '.' then scanNumber (acc ++ [c]) rest
    else if c = '(' then (none, c :: rest)
    else (some acc, c :: rest)

/-- Numeric value of a digit string (most significant first). -/
def digitsToNat (ds : List Char) : Nat :=
  ds.foldl (fun a c => 10 * a + (c.toNat - '0'.toNat)) 0

/-- Decimal value of a digit-and-dot literal `ip.fp` (`fp` may be empty). -/
def f64val (s : List Char) : ℚ :=
  let ip := s.takeWhile (fun c => c ≠ '.')
  let fp := (s.dropWhile (fun c => c ≠ '.')).drop 1
  (digitsToNat ip : ℚ) + (digitsToNat fp : ℚ) / (10 ^ fp.length)

/-- Model of Rust `str::parse::<f64>` restricted to the strings the
numeric scanner can accumulate (a digit followed by digits and dots):
such a string is a valid `f64` literal exactly when it contains at most
one decimal point, and its value is then the exact decimal value. -/
def parseF64 (s : List Char) : Option ℚ :=
  if s.count '.' ≤ 1 then some (f64val s) else none

/-- Outcome of one `Tokenizer::next` call: a token (`Some(tok)`), no token
(`None`, an invalid character), or the fatal `unwrap` panic on a malformed
numeric literal. -/
inductive TokStep where
  | tok : Token → TokStep
  | noTok : TokStep
  | crash : TokStep
deriving DecidableEq

/-- Model of `Tokenizer::next` (src/chapter-2/src/parsemaths/tokenizer.rs):
consumes characters from the remaining input and returns the step outcome
together with the new remaining input.  An exhausted input yields
`Token::EoF` (and leaves the state empty, so every further call yields
`EoF` again). -/
def nextToken : List Char → TokStep × List Char
  | [] => (.tok .EoF, [])
  | c :: rest =>
    if c.isDigit then
      match scanNumber [c] rest with
      | (none, rem) => (.noTok, rem)
      | (some txt, rem) =>
        match parseF64 txt with
        | some v => (.tok (.Num v), rem)
        | none => (.crash, rem)
    else if c = '+' then (.tok .Add, rest)
    else if c = '-' then (.tok .Subtract, rest)
    else if c = '*' then (.tok .Multiply, rest)
    else if c = '/' then (.tok .Divide, rest)
    else if c = '^' then (.tok .Caret, rest)
    else if c = '(' then (.tok .LeftParen, rest)
    else if c = ')' then (.tok .RightParen, rest)
    else (.noTok, rest)

/-!
## AST and evaluator (src/chapter-2/src/parsemaths/ast.rs)
-/

/-- Model of `Node` (src/chapter-2/src/parsemaths/ast.rs). -/
inductive Node where
  | Add : Node → Node → Node
  | Subtract : Node → Node → Node
  | Multiply : Node → Node → Node
  | Divide : Node → Node → Node
  | Caret : Node → Node → Node
  | Negative : Node → Node
  | Number : ℚ → Node
deriving DecidableEq

/-- Model of `f64::powf` on the rational model: exact for integer
exponents (the only exponents evaluated by any claim); a non-integer
exponent is outside the rational model of `f64`. -/
def powf (b e : ℚ) : ℚ :=
  if e.den = 1 then b ^ e.num else 0

/-- Model of `eval` (src/chapter-2/src/parsemaths/ast.rs).  The opaque
Rust error type `Box<dyn error::Error>` is modelled as `String`; left
children are evaluated before right children, as in the source. -/
def eval : Node → Except String ℚ
  | .Number i => Except.ok i
  | .Add expr1 expr2 => do
    let v1 ← eval expr1
    let v2 ← eval expr2
    return v1 + v2
  | .Subtract expr1 expr2 => do
    let v1 ← eval expr1
    let v2 ← eval expr2
    return v1 - v2
  | .Multiply expr1 expr2 => do
    let v1 ← eval expr1
    let v2 ← eval expr2
    return v1 * v2
  | .Divide expr1 expr2 => do
    let v1 ← eval expr1
    let v2 ← eval expr2
    return v1 / v2
  | .Negative expr1 => do
    let v1 ← eval expr1
    return -v1
  | .Caret expr1 expr2 => do
    let v1 ← eval expr1
    let v2 ← eval expr2
    return powf v1 v2

/-- The structural fold described by the spec: a leaf yields its stored
value, a negation negates its child's value, and each binary node applies
the corresponding operation to its children's values. -/
def foldNode : Node → ℚ
  | .Number i => i
  | .Add a b => foldNode a + foldNode b
  | .Subtract a b => foldNode a - foldNode b
  | .Multiply a b => foldNode a * foldNode b
  | .Divide a b => foldNode a / foldNode b
  | .Caret a b => powf (foldNode a) (foldNode b)
  | .Negative a => -(foldNode a)

/-!
## Parser (src/chapter-2/src/parsemaths/parser.rs)
-/

/-- Model of `ParseError` (src/chapter-2/src/parsemaths/parser.rs). -/
inductive ParseError where
  | UnableToParse : String → ParseError
  | InvalidOperator : String → ParseError
deriving DecidableEq

/-- The `Debug` (`{:?}`) rendering of a token, as used inside formatted
error messages.  The numeric payload of `Num` is not rendered; no claim
depends on its textual form. -/
def debugToken : Token → String
  | .Add => "Add"
  | .Subtract => "Subtract"
  | .Multiply => "Multiply"
  | .Divide => "Divide"
  | .Caret => "Caret"
  | .LeftParen => "LeftParen"
  | .RightParen => "RightParen"
  | .Num _ => "Num"
  | .EoF => "EoF"

/-- Model of the `Parser` struct: the owned tokenizer state (remaining
input characters) plus the one-token lookahead buffer. -/
structure Parser where
  tokenizer : List Char
  current_token : Token
deriving DecidableEq

/-- Outcome of a parser operation: `Ok`, a recoverable `ParseError`, the
propagated fatal abort of the tokenizer (`crash`), or exhaustion of the
explicit recursion fuel of the embedding (`outOfFuel`). -/
inductive Res (α : Type) where
  | ok : α → Res α
  | err : ParseError → Res α
  | crash : Res α
  | outOfFuel : Res α
deriving DecidableEq

/-- Error/crash propagation, the `?` operator of the source. -/
def Res.bind {α β : Type} : Res α → (α → Res β) → Res β
  | .ok a, f => f a
  | .err e, _ => .err e
  | .crash, _ => .crash
  | .outOfFuel, _ => .outOfFuel

/-- Model of `Parser::get_next_token`: pull one token from the tokenizer
into the lookahead buffer; Rust `None` becomes the recoverable
"Invalid character" error, a tokenizer panic propagates as `crash`. -/
def get_next_token (p : Parser) : Res Parser :=
  match nextToken p.tokenizer with
  | (.tok t, rem) => .ok ⟨rem, t⟩
  | (.noTok, _) => .err (.InvalidOperator "Invalid character")
  | (.crash, _) => .crash

/-- Model of `Parser::new`: build a tokenizer over the input and pull the
first token into the lookahead buffer. -/
def Parser.new (expr : List Char) : Res Parser :=
  match nextToken expr with
  | (.tok t, rem) => .ok ⟨rem, t⟩
  | (.noTok, _) => .err (.InvalidOperator "Invalid character")
  | (.crash, _) => .crash

/-- The message of the mismatched-parenthesis error of `check_paren`. -/
def expectedMsg (expect got : Token) : String :=
  "Expected " ++ debugToken expect ++ "\tGot " ++ debugToken got

/-- The message of the fallback ("please enter a valid operator") error of
`convert_token_to_node`. -/
def fallbackMsg (t : Token) : String :=
  "Please enter a valid operator " ++ debugToken t

/-- Model of `Parser::check_paren`. -/
def check_paren (p : Parser) (expect : Token) : Res Parser :=
  if expect = p.current_token then get_next_token p
  else .err (.InvalidOperator (expectedMsg expect p.current_token))

/-- Shape of the three mutually recursive parsing procedures once the
recursion is abstracted: a floor precedence and a parser state in, a node
and a new state out. -/
abbrev GenAst : Type := OperPrec → Parser → Res (Node × Parser)

/-- Model of `Parser::parse_number`, parameterised by the recursive entry
point `ga` (`Parser::generate_ast`).  Handles a leading minus (recursing
at the unary-negative floor), a numeric literal, and a parenthesised
group (with the implicit-multiplication rule for an immediately following
second group); any other token is the "Unable to parse" error. -/
def parse_number (ga : GenAst) (p : Parser) : Res (Node × Parser) :=
  match p.current_token with
  | .Subtract =>
    Res.bind (get_next_token p) fun p1 =>
    Res.bind (ga .Negative p1) fun ep =>
    .ok (.Negative ep.1, ep.2)
  | .Num i =>
    Res.bind (get_next_token p) fun p1 =>
    .ok (.Number i, p1)
  | .LeftParen =>
    Res.bind (get_next_token p) fun p1 =>
    Res.bind (ga .DefaultZero p1) fun ep =>
    Res.bind (check_paren ep.2 .RightParen) fun p3 =>
    if p3.current_token = .LeftParen then
      Res.bind (ga .MulDiv p3) fun rp =>
      .ok (.Multiply ep.1 rp.1, rp.2)
    else .ok (ep.1, p3)
  | _ => .err (.UnableToParse "Unable to parse")

/-- Model of `Parser::convert_token_to_node`, parameterised by the
recursive entry point `ga`: each binary-operator token consumes itself and
recurses for its right operand at that operator's own precedence floor;
any other token is the fallback invalid-operator error. -/
def convert_token_to_node (ga : GenAst) (left_expr : Node) (p : Parser) :
    Res (Node × Parser) :=
  match p.current_token with
  | .Add =>
    Res.bind (get_next_token p) fun p1 =>
    Res.bind (ga .AddSub p1) fun rp =>
    .ok (.Add left_expr rp.1, rp.2)
  | .Subtract =>
    Res.bind (get_next_token p) fun p1 =>
    Res.bind (ga .AddSub p1) fun rp =>
    .ok (.Subtract left_expr rp.1, rp.2)
  | .Multiply =>
    Res.bind (get_next_token p) fun p1 =>
    Res.bind (ga .MulDiv p1) fun rp =>
    .ok (.Multiply left_expr rp.1, rp.2)
  | .Divide =>
    Res.bind (get_next_token p) fun p1 =>
    Res.bind (ga .MulDiv p1) fun rp =>
    .ok (.Divide left_expr rp.1, rp.2)
  | .Caret =>
    Res.bind (get_next_token p) fun p1 =>
    Res.bind (ga .Power p1) fun rp =>
    .ok (.Caret left_expr rp.1, rp.2)
  | t => .err (.InvalidOperator (fallbackMsg t))

/-- The climbing loop of `Parser::generate_ast` (`while oper_prec <
current.get_oper_prec { if current == EoF break; left =
convert_token_to_node(left) }`), parameterised by the recursive entry
point `ga` and given explicit iteration fuel. -/
def ga_loop (ga : GenAst) : Nat → OperPrec → Node → Parser → Res (Node × Parser)
  | 0, _, _, _ => .outOfFuel
  | f + 1, oper_prec, left_expr, p =>
    if OperPrec.lt oper_prec p.current_token.get_oper_prec then
      if p.current_token = .EoF then .ok (left_expr, p)
      else
        Res.bind (convert_token_to_node ga left_expr p) fun rp =>
        ga_loop ga f oper_prec rp.1 rp.2
    else .ok (left_expr, p)

/-- Model of `Parser::generate_ast`, the main recursive procedure: parse a
primary expression with `parse_number`, then climb with `ga_loop`.  The
`Nat` argument is recursion fuel; by the fuel-adequacy theorem any fuel
exceeding the remaining input length gives the Rust semantics. -/
def generate_ast (fuel : Nat) : OperPrec → Parser → Res (Node × Parser) :=
  Nat.rec (motive := fun _ => GenAst)
    (fun _ _ => .outOfFuel)
    (fun f ih oper_prec p =>
      Res.bind (parse_number ih p) fun lp =>
      ga_loop ih f oper_prec lp.1 lp.2)
    fuel

/-- Model of `Parser::parse`: run `generate_ast` at the default/zero
floor and propagate its result. -/
def Parser.parse (fuel : Nat) (p : Parser) : Res (Node × Parser) :=
  generate_ast fuel .DefaultZero p

/-- The whole parsing pipeline on an input string: construct the parser
(priming the lookahead) and run `Parser::parse`.  The final `Parser`
state, including the lookahead buffer at the moment of return, is part of
the result. -/
def parseStr (fuel : Nat) (s : String) : Res (Node × Parser) :=
  Res.bind (Parser.new s.data) (Parser.parse fuel)

/-- Model of `evaluate` (src/src/main.rs): strip whitespace, parse, then
evaluate the tree; an evaluation error is converted by the `From`
implementation into `UnableToParse "Unable to parse"`. -/
def evaluate (fuel : Nat) (s : String) : Res ℚ :=
  Res.bind (parseStr fuel ⟨s.data.filter (fun c => !c.isWhitespace)⟩) fun np =>
    match eval np.1 with
    | .ok v => .ok v
    | .error _ => .err (.UnableToParse "Unable to parse")

/-- Number of unconsumed "token units" of a parser state: the remaining
characters plus one for a buffered non-end-marker lookahead.  Every
successful `get_next_token` strictly decreases it (the parser only pulls
a token when the lookahead is not the end-marker), which is the measure
making the recursion of `generate_ast` well-founded. -/
def Parser.meas (p : Parser) : Nat :=
  p.tokenizer.length + (if p.current_token = .EoF then 0 else 1)

/-- The recoverable errors the parsing pipeline can actually produce:
tokenizer exhaustion / invalid character, an unparseable primary token,
and a parenthesis mismatch.  The fallback invalid-operator error of
`convert_token_to_node` is not among them. -/
def errOK (e : ParseError) : Prop :=
  e = .InvalidOperator "Invalid character" ∨
  e = .UnableToParse "Unable to parse" ∨
  ∃ a b, e = .InvalidOperator (expectedMsg a b)

/-!
## Theorems

First the unfolding equations of the embedding, then the tokenizer
lemmas, the termination measure, the fuel-adequacy, error-shape and
crash-shape invariants of the parser, and finally the claim theorems.
-/

@[simp] theorem Res.bind_ok {α β : Type} (a : α) (f : α → Res β) :
    Res.bind (.ok a) f = f a := rfl

@[simp] theorem Res.bind_err {α β : Type} (e : ParseError) (f : α → Res β) :
    Res.bind (.err e) f = .err e := rfl

@[simp] theorem Res.bind_crash {α β : Type} (f : α → Res β) :
    Res.bind .crash f = .crash := rfl

@[simp] theorem Res.bind_outOfFuel {α β : Type} (f : α → Res β) :
    Res.bind .outOfFuel f = .outOfFuel := rfl

@[simp] theorem generate_ast_zero (oper_prec : OperPrec) (p : Parser) :
    generate_ast 0 oper_prec p = .outOfFuel := rfl

@[simp] theorem generate_ast_succ (f : Nat) (oper_prec : OperPrec) (p : Parser) :
    generate_ast (f + 1) oper_prec p =
      Res.bind (parse_number (generate_ast f) p) fun lp =>
        ga_loop (generate_ast f) f oper_prec lp.1 lp.2 := rfl

theorem scanNumber_suffix : ∀ (cs acc : List Char), (scanNumber acc cs).2 <:+ cs := by
  intro cs
  induction cs with
  | nil => intro acc; simp [scanNumber]
  | cons c rest ih =>
    intro acc
    simp only [scanNumber]
    split
    · exact ((ih _).trans (List.suffix_cons c rest))
    · split
      · exact List.suffix_refl _
      · exact List.suffix_refl _

theorem nextToken_suffix (cs : List Char) : (nextToken cs).2 <:+ cs := by
  match cs with
  | [] => exact List.suffix_refl _
  | c :: rest =>
    have hsub : rest <:+ c :: rest := List.suffix_cons c rest
    simp only [nextToken]
    split
    · rcases h : scanNumber [c] rest with ⟨o, rem⟩
      have hs : rem <:+ rest := by
        have := scanNumber_suffix rest [c]
        rw [h] at this
        exact this
      cases o with
      | none => simpa using hs.trans hsub
      | some txt =>
        cases h2 : parseF64 txt <;> simpa [h2] using hs.trans hsub
    all_goals (repeat' split) <;> exact hsub

/-- Any call on a nonempty remaining input consumes at least one
character, whatever the outcome. -/
theorem nextToken_cons_len (c : Char) (rest : List Char) :
    (nextToken (c :: rest)).2.length < (c :: rest).length := by
  have hlen : ∀ rem : List Char, rem <:+ rest → rem.length < (c :: rest).length := by
    intro rem h
    exact Nat.lt_succ_of_le h.length_le
  simp only [nextToken]
  split
  · rcases h : scanNumber [c] rest with ⟨o, rem⟩
    have hs : rem <:+ rest := by
      have := scanNumber_suffix rest [c]
      rw [h] at this
      exact this
    cases o with
    | none => simpa using hlen rem hs
    | some txt =>
      cases h2 : parseF64 txt <;> simpa [h2] using hlen rem hs
  all_goals (repeat' split) <;> exact Nat.lt_succ_of_le (Nat.le_refl _)

/-- The end-of-input marker is yielded exactly when the remaining input is
empty. -/
theorem nextToken_EoF_iff (cs : List Char) :
    (nextToken cs).1 = .tok .EoF ↔ cs = [] := by
  match cs with
  | [] => simp [nextToken]
  | c :: rest =>
    simp only [nextToken, List.cons_ne_nil, iff_false]
    split
    · rcases h : scanNumber [c] rest with ⟨o, rem⟩
      cases o with
      | none => simp
      | some txt => cases h2 : parseF64 txt <;> simp [h2]
    all_goals (repeat' split) <;> simp

/-- While accumulating a numeric literal, digits and dots are consumed
until an open parenthesis, at which point the scanner gives up (`none`)
with the parenthesis still unconsumed. -/
theorem scanNumber_paren : ∀ (ds acc rest : List Char),
    (∀ x ∈ ds, x.isDigit = true ∨ x = '.') →
    scanNumber acc (ds ++ '(' :: rest) = (none, '(' :: rest) := by
  intro ds
  induction ds with
  | nil => intro acc rest _; simp +decide [scanNumber]
  | cons d ds ih =>
    intro acc rest h
    have hd : (d.isDigit || decide (d = '.')) = true := by
      rcases h d (by simp) with h1 | h1 <;> simp [h1]
    simp only [List.cons_append, scanNumber, hd, if_true]
    exact ih _ rest (fun x hx => h x (by simp [hx]))

theorem nextToken_tok_meas (cs : List Char) (t : Token) (rem : List Char)
    (h : nextToken cs = (.tok t, rem)) :
    rem.length + (if t = Token.EoF then 0 else 1) ≤ cs.length := by
  rcases cs with _ | ⟨c, rest⟩
  · simp only [nextToken] at h
    cases h
    simp
  · have hl := nextToken_cons_len c rest
    rw [h] at hl
    simp only [List.length_cons] at hl ⊢
    split <;> omega

theorem get_next_token_eq_new (p : Parser) :
    get_next_token p = Parser.new p.tokenizer := rfl

theorem new_ok_meas {cs : List Char} {p' : Parser}
    (h : Parser.new cs = .ok p') : p'.meas ≤ cs.length := by
  unfold Parser.new at h
  rcases hn : nextToken cs with ⟨step, rem⟩
  rw [hn] at h
  cases step with
  | tok t =>
    simp only [Res.ok.injEq] at h
    subst h
    simpa [Parser.meas] using nextToken_tok_meas cs t rem hn
  | noTok => cases h
  | crash => cases h

theorem new_ok_suffix {cs : List Char} {p' : Parser}
    (h : Parser.new cs = .ok p') : p'.tokenizer <:+ cs := by
  unfold Parser.new at h
  rcases hn : nextToken cs with ⟨step, rem⟩
  rw [hn] at h
  cases step with
  | tok t =>
    simp only [Res.ok.injEq] at h
    subst h
    have := nextToken_suffix cs
    rw [hn] at this
    exact this
  | noTok => cases h
  | crash => cases h

theorem new_err {cs : List Char} {e : ParseError}
    (h : Parser.new cs = .err e) : e = .InvalidOperator "Invalid character" := by
  unfold Parser.new at h
  rcases hn : nextToken cs with ⟨step, rem⟩
  rw [hn] at h
  cases step with
  | tok t => cases h
  | noTok => cases h; rfl
  | crash => cases h

theorem new_crash {cs : List Char}
    (h : Parser.new cs = .crash) : (nextToken cs).1 = .crash := by
  unfold Parser.new at h
  rcases hn : nextToken cs with ⟨step, rem⟩
  rw [hn] at h
  cases step with
  | tok t => cases h
  | noTok => cases h
  | crash => rfl

theorem get_next_token_ok_meas {p p' : Parser}
    (h : get_next_token p = .ok p') : p'.meas ≤ p.tokenizer.length :=
  new_ok_meas (get_next_token_eq_new p ▸ h)

/-- The key decrease: the parser pulls a new token only while the
lookahead is not the end-marker, and then the measure strictly drops. -/
theorem get_next_token_ok_meas_lt {p p' : Parser} (hne : p.current_token ≠ .EoF)
    (h : get_next_token p = .ok p') : p'.meas < p.meas := by
  have h1 := get_next_token_ok_meas h
  have h2 : p.meas = p.tokenizer.length + 1 := by
    simp [Parser.meas, hne]
  omega

theorem get_next_token_ok_suffix {p p' : Parser}
    (h : get_next_token p = .ok p') : p'.tokenizer <:+ p.tokenizer :=
  new_ok_suffix (get_next_token_eq_new p ▸ h)

theorem get_next_token_err {p : Parser} {e : ParseError}
    (h : get_next_token p = .err e) : e = .InvalidOperator "Invalid character" :=
  new_err (get_next_token_eq_new p ▸ h)

theorem get_next_token_crash {p : Parser}
    (h : get_next_token p = .crash) : (nextToken p.tokenizer).1 = .crash :=
  new_crash (get_next_token_eq_new p ▸ h)

theorem Res.bind_eq_ok {α β : Type} {x : Res α} {f : α → Res β} {b : β}
    (h : Res.bind x f = .ok b) : ∃ a, x = .ok a ∧ f a = .ok b := by
  cases x with
  | ok a => exact ⟨a, rfl, h⟩
  | err e => cases h
  | crash => cases h
  | outOfFuel => cases h

theorem Res.bind_eq_err {α β : Type} {x : Res α} {f : α → Res β} {e : ParseError}
    (h : Res.bind x f = .err e) : x = .err e ∨ ∃ a, x = .ok a ∧ f a = .err e := by
  cases x with
  | ok a => exact Or.inr ⟨a, rfl, h⟩
  | err e0 =>
    rw [Res.bind_err] at h
    cases h
    exact Or.inl rfl
  | crash => cases h
  | outOfFuel => cases h

theorem Res.bind_eq_crash {α β : Type} {x : Res α} {f : α → Res β}
    (h : Res.bind x f = .crash) : x = .crash ∨ ∃ a, x = .ok a ∧ f a = .crash := by
  cases x with
  | ok a => exact Or.inr ⟨a, rfl, h⟩
  | err e0 => cases h
  | crash => exact Or.inl rfl
  | outOfFuel => cases h

theorem Res.bind_eq_outOfFuel {α β : Type} {x : Res α} {f : α → Res β}
    (h : Res.bind x f = .outOfFuel) :
    x = .outOfFuel ∨ ∃ a, x = .ok a ∧ f a = .outOfFuel := by
  cases x with
  | ok a => exact Or.inr ⟨a, rfl, h⟩
  | err e0 => cases h
  | crash => cases h
  | outOfFuel => exact Or.inl rfl

theorem check_paren_ok {q q' : Parser} {expect : Token} (hne : expect ≠ .EoF)
    (h : check_paren q expect = .ok q') :
    q'.meas < q.meas ∧ q'.tokenizer <:+ q.tokenizer := by
  unfold check_paren at h
  split at h
  · rename_i heq
    exact ⟨get_next_token_ok_meas_lt (heq ▸ hne) h, get_next_token_ok_suffix h⟩
  · cases h

/-- A successful `parse_number` consumes at least one token: the measure
strictly decreases and the remaining input is a suffix of the original. -/
theorem parse_number_ok {ga : GenAst}
    (hga : ∀ (prec : OperPrec) (q : Parser) (r : Node × Parser),
      ga prec q = .ok r → r.2.meas < q.meas ∧ r.2.tokenizer <:+ q.tokenizer) :
    ∀ {p : Parser} {r : Node × Parser}, parse_number ga p = .ok r →
      r.2.meas < p.meas ∧ r.2.tokenizer <:+ p.tokenizer := by
  intro p r h
  obtain ⟨tk, ct⟩ := p
  cases ct <;> simp only [parse_number] at h
  case Subtract =>
    obtain ⟨p1, hg, h⟩ := Res.bind_eq_ok h
    obtain ⟨ep, hga1, h⟩ := Res.bind_eq_ok h
    cases h
    have hm1 := get_next_token_ok_meas_lt (by simp) hg
    have hs1 := get_next_token_ok_suffix hg
    obtain ⟨hm2, hs2⟩ := hga _ _ _ hga1
    exact ⟨hm2.trans hm1, hs2.trans hs1⟩
  case Num i =>
    obtain ⟨p1, hg, h⟩ := Res.bind_eq_ok h
    cases h
    exact ⟨get_next_token_ok_meas_lt (by simp) hg, get_next_token_ok_suffix hg⟩
  case LeftParen =>
    obtain ⟨p1, hg, h⟩ := Res.bind_eq_ok h
    obtain ⟨ep, hga1, h⟩ := Res.bind_eq_ok h
    obtain ⟨p3, hcp, h⟩ := Res.bind_eq_ok h
    have hm1 := get_next_token_ok_meas_lt (by simp) hg
    have hs1 := get_next_token_ok_suffix hg
    obtain ⟨hm2, hs2⟩ := hga _ _ _ hga1
    obtain ⟨hm3, hs3⟩ := check_paren_ok (by decide) hcp
    split at h
    · obtain ⟨rp, hga2, h⟩ := Res.bind_eq_ok h
      cases h
      obtain ⟨hm4, hs4⟩ := hga _ _ _ hga2
      exact ⟨hm4.trans (hm3.trans (hm2.trans hm1)),
        hs4.trans (hs3.trans (hs2.trans hs1))⟩
    · cases h
      exact ⟨hm3.trans (hm2.trans hm1), hs3.trans (hs2.trans hs1)⟩
  all_goals cases h

/-- A successful `convert_token_to_node` consumes at least the operator
token: the measure strictly decreases. -/
theorem convert_ok {ga : GenAst}
    (hga : ∀ (prec : OperPrec) (q : Parser) (r : Node × Parser),
      ga prec q = .ok r → r.2.meas < q.meas ∧ r.2.tokenizer <:+ q.tokenizer) :
    ∀ {left : Node} {p : Parser} {r : Node × Parser},
      convert_token_to_node ga left p = .ok r →
      r.2.meas < p.meas ∧ r.2.tokenizer <:+ p.tokenizer := by
  intro left p r h
  obtain ⟨tk, ct⟩ := p
  cases ct <;> simp only [convert_token_to_node] at h
  case Num i => cases h
  all_goals first
    | cases h
    | (obtain ⟨p1, hg, h⟩ := Res.bind_eq_ok h
       obtain ⟨rp, hga1, h⟩ := Res.bind_eq_ok h
       cases h
       have hm1 := get_next_token_ok_meas_lt (by simp) hg
       have hs1 := get_next_token_ok_suffix hg
       obtain ⟨hm2, hs2⟩ := hga _ _ _ hga1
       exact ⟨hm2.trans hm1, hs2.trans hs1⟩)

/-- The climbing loop never increases the measure. -/
theorem ga_loop_ok {ga : GenAst}
    (hga : ∀ (prec : OperPrec) (q : Parser) (r : Node × Parser),
      ga prec q = .ok r → r.2.meas < q.meas ∧ r.2.tokenizer <:+ q.tokenizer) :
    ∀ (f : Nat) (prec : OperPrec) (left : Node) (p : Parser) (r : Node × Parser),
      ga_loop ga f prec left p = .ok r →
      r.2.meas ≤ p.meas ∧ r.2.tokenizer <:+ p.tokenizer := by
  intro f
  induction f with
  | zero => intro _ _ _ _ h; cases h
  | succ f ih =>
    intro prec left p r h
    simp only [ga_loop] at h
    split at h
    · split at h
      · cases h
        exact ⟨Nat.le_refl _, List.suffix_refl _⟩
      · obtain ⟨rp, hc, h⟩ := Res.bind_eq_ok h
        obtain ⟨hm1, hs1⟩ := convert_ok hga hc
        obtain ⟨hm2, hs2⟩ := ih prec rp.1 rp.2 r h
        exact ⟨Nat.le_of_lt (Nat.lt_of_le_of_lt hm2 hm1), hs2.trans hs1⟩
    · cases h
      exact ⟨Nat.le_refl _, List.suffix_refl _⟩

/-- A successful `generate_ast` consumes at least one token: the measure
strictly decreases and the remaining input is a suffix of the original. -/
theorem generate_ast_ok :
    ∀ (fuel : Nat) (prec : OperPrec) (p : Parser) (r : Node × Parser),
      generate_ast fuel prec p = .ok r →
      r.2.meas < p.meas ∧ r.2.tokenizer <:+ p.tokenizer := by
  intro fuel
  induction fuel with
  | zero => intro _ _ _ h; cases h
  | succ f ih =>
    intro prec p r h
    rw [generate_ast_succ] at h
    obtain ⟨lp, hpn, h⟩ := Res.bind_eq_ok h
    obtain ⟨hm1, hs1⟩ := parse_number_ok ih hpn
    obtain ⟨hm2, hs2⟩ := ga_loop_ok ih f prec lp.1 lp.2 r h
    exact ⟨Nat.lt_of_le_of_lt hm2 hm1, hs2.trans hs1⟩

theorem get_next_token_ne_outOfFuel (p : Parser) : get_next_token p ≠ .outOfFuel := by
  unfold get_next_token
  rcases hn : nextToken p.tokenizer with ⟨step, rem⟩
  cases step <;> simp

theorem check_paren_ne_outOfFuel (q : Parser) (expect : Token) :
    check_paren q expect ≠ .outOfFuel := by
  unfold check_paren
  split
  · exact get_next_token_ne_outOfFuel q
  · simp

theorem parse_number_no_fuel {ga : GenAst} {F : Nat}
    (hga : ∀ (prec : OperPrec) (q : Parser) (r : Node × Parser),
      ga prec q = .ok r → r.2.meas < q.meas ∧ r.2.tokenizer <:+ q.tokenizer)
    (hfa : ∀ (prec : OperPrec) (q : Parser), q.meas < F → ga prec q ≠ .outOfFuel) :
    ∀ {p : Parser}, p.meas ≤ F → parse_number ga p ≠ .outOfFuel := by
  intro p hp h
  obtain ⟨tk, ct⟩ := p
  cases ct <;> simp only [parse_number] at h
  case Subtract =>
    rcases Res.bind_eq_outOfFuel h with h1 | ⟨p1, hg, h1⟩
    · exact get_next_token_ne_outOfFuel _ h1
    · have hm1 := get_next_token_ok_meas_lt (by simp) hg
      rcases Res.bind_eq_outOfFuel h1 with h2 | ⟨ep, _, h2⟩
      · exact hfa _ _ (by simp only [Parser.meas] at hp hm1 ⊢; omega) h2
      · cases h2
  case Num i =>
    rcases Res.bind_eq_outOfFuel h with h1 | ⟨p1, _, h1⟩
    · exact get_next_token_ne_outOfFuel _ h1
    · cases h1
  case LeftParen =>
    rcases Res.bind_eq_outOfFuel h with h1 | ⟨p1, hg, h1⟩
    · exact get_next_token_ne_outOfFuel _ h1
    · have hm1 := get_next_token_ok_meas_lt (by simp) hg
      rcases Res.bind_eq_outOfFuel h1 with h2 | ⟨ep, hga1, h2⟩
      · exact hfa _ _ (by omega) h2
      · obtain ⟨hm2, _⟩ := hga _ _ _ hga1
        rcases Res.bind_eq_outOfFuel h2 with h3 | ⟨p3, hcp, h3⟩
        · exact check_paren_ne_outOfFuel _ _ h3
        · obtain ⟨hm3, _⟩ := check_paren_ok (by decide) hcp
          split at h3
          · rcases Res.bind_eq_outOfFuel h3 with h4 | ⟨rp, _, h4⟩
            · exact hfa _ _ (by omega) h4
            · cases h4
          · cases h3
  all_goals cases h

theorem convert_no_fuel {ga : GenAst} {F : Nat}
    (hfa : ∀ (prec : OperPrec) (q : Parser), q.meas < F → ga prec q ≠ .outOfFuel) :
    ∀ {left : Node} {p : Parser}, p.meas ≤ F →
      convert_token_to_node ga left p ≠ .outOfFuel := by
  intro left p hp h
  obtain ⟨tk, ct⟩ := p
  cases ct <;> simp only [convert_token_to_node] at h
  case Num i => cases h
  all_goals first
    | cases h
    | (rcases Res.bind_eq_outOfFuel h with h1 | ⟨p1, hg, h1⟩
       · exact get_next_token_ne_outOfFuel _ h1
       · have hm1 := get_next_token_ok_meas_lt (by simp) hg
         rcases Res.bind_eq_outOfFuel h1 with h2 | ⟨rp, _, h2⟩
         · exact hfa _ _ (by omega) h2
         · cases h2)

theorem ga_loop_no_fuel {ga : GenAst} {F : Nat}
    (hga : ∀ (prec : OperPrec) (q : Parser) (r : Node × Parser),
      ga prec q = .ok r → r.2.meas < q.meas ∧ r.2.tokenizer <:+ q.tokenizer)
    (hfa : ∀ (prec : OperPrec) (q : Parser), q.meas < F → ga prec q ≠ .outOfFuel) :
    ∀ (f : Nat) {prec : OperPrec} {left : Node} {p : Parser},
      p.meas < f → f ≤ F + 1 → ga_loop ga f prec left p ≠ .outOfFuel := by
  intro f
  induction f with
  | zero => intro _ _ _ hm _ _; exact absurd hm (Nat.not_lt_zero _)
  | succ f ih =>
    intro prec left p hm hf h
    simp only [ga_loop] at h
    split at h
    · split at h
      · cases h
      · rcases Res.bind_eq_outOfFuel h with h1 | ⟨rp, hc, h1⟩
        · exact convert_no_fuel hfa (by omega) h1
        · obtain ⟨hm1, _⟩ := convert_ok hga hc
          exact ih (by omega) (by omega) h1
    · cases h

/-- Fuel adequacy: the Rust recursion of `generate_ast` is well-founded;
any fuel exceeding the measure of the parser state (bounded by the
remaining input length plus one) is never exhausted. -/
theorem generate_ast_no_fuel :
    ∀ (fuel : Nat) {oper_prec : OperPrec} {p : Parser}, p.meas < fuel →
      generate_ast fuel oper_prec p ≠ .outOfFuel := by
  intro fuel
  induction fuel with
  | zero => intro _ _ hm; exact absurd hm (Nat.not_lt_zero _)
  | succ f ih =>
    intro prec p hm h
    rw [generate_ast_succ] at h
    rcases Res.bind_eq_outOfFuel h with h1 | ⟨lp, hpn, h1⟩
    · exact parse_number_no_fuel (generate_ast_ok f) (fun _ q hq => ih hq)
        (Nat.lt_succ_iff.mp hm) h1
    · obtain ⟨hm1, _⟩ := parse_number_ok (generate_ast_ok f) hpn
      exact ga_loop_no_fuel (generate_ast_ok f) (fun _ q hq => ih hq) f
        (by omega) (by omega) h1

theorem new_ne_outOfFuel (cs : List Char) : Parser.new cs ≠ .outOfFuel := by
  unfold Parser.new
  rcases hn : nextToken cs with ⟨step, rem⟩
  cases step <;> simp

theorem check_paren_err {q : Parser} {expect : Token} {e : ParseError}
    (h : check_paren q expect = .err e) : errOK e := by
  unfold check_paren at h
  split at h
  · exact Or.inl (get_next_token_err h)
  · cases h
    exact Or.inr (Or.inr ⟨expect, q.current_token, rfl⟩)

theorem parse_number_err {ga : GenAst}
    (hga : ∀ (prec : OperPrec) (q : Parser) (e : ParseError),
      ga prec q = .err e → errOK e) :
    ∀ {p : Parser} {e : ParseError}, parse_number ga p = .err e → errOK e := by
  intro p e h
  obtain ⟨tk, ct⟩ := p
  cases ct <;> simp only [parse_number] at h
  case Subtract =>
    rcases Res.bind_eq_err h with h1 | ⟨p1, hg, h1⟩
    · exact Or.inl (get_next_token_err h1)
    · rcases Res.bind_eq_err h1 with h2 | ⟨ep, _, h2⟩
      · exact hga _ _ _ h2
      · cases h2
  case Num i =>
    rcases Res.bind_eq_err h with h1 | ⟨p1, _, h1⟩
    · exact Or.inl (get_next_token_err h1)
    · cases h1
  case LeftParen =>
    rcases Res.bind_eq_err h with h1 | ⟨p1, hg, h1⟩
    · exact Or.inl (get_next_token_err h1)
    · rcases Res.bind_eq_err h1 with h2 | ⟨ep, hga1, h2⟩
      · exact hga _ _ _ h2
      · rcases Res.bind_eq_err h2 with h3 | ⟨p3, hcp, h3⟩
        · exact check_paren_err h3
        · split at h3
          · rcases Res.bind_eq_err h3 with h4 | ⟨rp, _, h4⟩
            · exact hga _ _ _ h4
            · cases h4
          · cases h3
  all_goals (cases h; exact Or.inr (Or.inl rfl))

/-- Only the five binary-operator tokens have a precedence level strictly
above any floor; every other token sits at the default/zero level. -/
theorem token_of_lt {op : OperPrec} {t : Token}
    (h : OperPrec.lt op t.get_oper_prec = true) :
    t = .Add ∨ t = .Subtract ∨ t = .Multiply ∨ t = .Divide ∨ t = .Caret := by
  cases t <;> simp_all [Token.get_oper_prec, OperPrec.lt, OperPrec.toNat]

theorem convert_err {ga : GenAst}
    (hga : ∀ (prec : OperPrec) (q : Parser) (e : ParseError),
      ga prec q = .err e → errOK e)
    {left : Node} {p : Parser} {e : ParseError}
    (hop : p.current_token = .Add ∨ p.current_token = .Subtract ∨
      p.current_token = .Multiply ∨ p.current_token = .Divide ∨
      p.current_token = .Caret)
    (h : convert_token_to_node ga left p = .err e) : errOK e := by
  obtain ⟨tk, ct⟩ := p
  simp only at hop
  rcases hop with rfl | rfl | rfl | rfl | rfl <;>
    simp only [convert_token_to_node] at h <;>
    (rcases Res.bind_eq_err h with h1 | ⟨p1, hg, h1⟩
     · exact Or.inl (get_next_token_err h1)
     · rcases Res.bind_eq_err h1 with h2 | ⟨rp, _, h2⟩
       · exact hga _ _ _ h2
       · cases h2)

theorem ga_loop_err {ga : GenAst}
    (hga : ∀ (prec : OperPrec) (q : Parser) (e : ParseError),
      ga prec q = .err e → errOK e) :
    ∀ (f : Nat) {prec : OperPrec} {left : Node} {p : Parser} {e : ParseError},
      ga_loop ga f prec left p = .err e → errOK e := by
  intro f
  induction f with
  | zero => intro _ _ _ _ h; cases h
  | succ f ih =>
    intro prec left p e h
    simp only [ga_loop] at h
    split at h
    · rename_i hlt
      split at h
      · cases h
      · rcases Res.bind_eq_err h with h1 | ⟨rp, hc, h1⟩
        · exact convert_err hga (token_of_lt hlt) h1
        · exact ih h1
    · cases h

/-- Every recoverable error `generate_ast` can return is one of the three
real error shapes; in particular the fallback branch of
`convert_token_to_node` is unreachable. -/
theorem generate_ast_err :
    ∀ (fuel : Nat) {oper_prec : OperPrec} {p : Parser} {e : ParseError},
      generate_ast fuel oper_prec p = .err e → errOK e := by
  intro fuel
  induction fuel with
  | zero => intro _ _ _ h; cases h
  | succ f ih =>
    intro prec p e h
    rw [generate_ast_succ] at h
    rcases Res.bind_eq_err h with h1 | ⟨lp, hpn, h1⟩
    · exact parse_number_err (fun _ q e0 hq => ih hq) h1
    · exact ga_loop_err (fun _ q e0 hq => ih hq) f h1

theorem fallbackMsg_ne_invalid (t : Token) :
    fallbackMsg t ≠ "Invalid character" := by
  cases t <;> simp only [fallbackMsg, debugToken] <;> decide

theorem fallbackMsg_ne_expected (t a b : Token) :
    fallbackMsg t ≠ expectedMsg a b := by
  cases t <;> cases a <;> cases b <;>
    simp only [fallbackMsg, expectedMsg, debugToken] <;> decide

/-- The climbing loop hands control back only when the lookahead token's
precedence has stopped being strictly greater than the floor. -/
theorem ga_loop_exit {ga : GenAst} :
    ∀ (f : Nat) {prec : OperPrec} {left : Node} {p : Parser} {r : Node × Parser},
      ga_loop ga f prec left p = .ok r →
      OperPrec.lt prec r.2.current_token.get_oper_prec = false := by
  intro f
  induction f with
  | zero => intro _ _ _ _ h; cases h
  | succ f ih =>
    intro prec left p r h
    simp only [ga_loop] at h
    split at h
    · rename_i hlt
      split at h
      · rename_i hEoF
        cases h
        simp [hEoF, Token.get_oper_prec, OperPrec.lt, OperPrec.toNat]
      · obtain ⟨rp, _, h1⟩ := Res.bind_eq_ok h
        exact ih h1
    · rename_i hlt
      cases h
      simpa using hlt

theorem generate_ast_exit :
    ∀ (fuel : Nat) {oper_prec : OperPrec} {p : Parser} {r : Node × Parser},
      generate_ast fuel oper_prec p = .ok r →
      OperPrec.lt oper_prec r.2.current_token.get_oper_prec = false := by
  intro fuel
  cases fuel with
  | zero => intro _ _ _ h; cases h
  | succ f =>
    intro prec p r h
    rw [generate_ast_succ] at h
    obtain ⟨lp, _, h1⟩ := Res.bind_eq_ok h
    exact ga_loop_exit f h1

/-- A fatal tokenizer abort arises only in the numeric-literal arm: the
remaining input starts with a digit, the scanner accumulates a full
literal text, and that text is not a valid 64-bit float. -/
theorem nextToken_crash_shape {cs : List Char} (h : (nextToken cs).1 = .crash) :
    ∃ c rest txt rem, cs = c :: rest ∧ c.isDigit = true ∧
      scanNumber [c] rest = (some txt, rem) ∧ parseF64 txt = none := by
  rcases cs with _ | ⟨c, rest⟩
  · simp [nextToken] at h
  · simp only [nextToken] at h
    by_cases hd : c.isDigit = true
    · rw [if_pos hd] at h
      rcases hs : scanNumber [c] rest with ⟨o, rem⟩
      rw [hs] at h
      cases o with
      | none => simp at h
      | some txt =>
        rcases hp : parseF64 txt with _ | v
        · exact ⟨c, rest, txt, rem, rfl, hd, hs, hp⟩
        · simp [hp] at h
    · rw [if_neg hd] at h
      repeat' split at h
      all_goals simp at h

theorem check_paren_crash {q : Parser} {expect : Token}
    (h : check_paren q expect = .crash) : (nextToken q.tokenizer).1 = .crash := by
  unfold check_paren at h
  split at h
  · exact get_next_token_crash h
  · cases h

theorem parse_number_crash {ga : GenAst}
    (hga : ∀ (prec : OperPrec) (q : Parser) (r : Node × Parser),
      ga prec q = .ok r → r.2.meas < q.meas ∧ r.2.tokenizer <:+ q.tokenizer)
    (hgaC : ∀ (prec : OperPrec) (q : Parser), ga prec q = .crash →
      ∃ st, st <:+ q.tokenizer ∧ (nextToken st).1 = .crash) :
    ∀ {p : Parser}, parse_number ga p = .crash →
      ∃ st, st <:+ p.tokenizer ∧ (nextToken st).1 = .crash := by
  intro p h
  obtain ⟨tk, ct⟩ := p
  cases ct <;> simp only [parse_number] at h
  case Subtract =>
    rcases Res.bind_eq_crash h with h1 | ⟨p1, hg, h1⟩
    · exact ⟨tk, List.suffix_refl _, get_next_token_crash h1⟩
    · have hs1 := get_next_token_ok_suffix hg
      rcases Res.bind_eq_crash h1 with h2 | ⟨ep, _, h2⟩
      · obtain ⟨st, hst, hcr⟩ := hgaC _ _ h2
        exact ⟨st, hst.trans hs1, hcr⟩
      · cases h2
  case Num i =>
    rcases Res.bind_eq_crash h with h1 | ⟨p1, _, h1⟩
    · exact ⟨tk, List.suffix_refl _, get_next_token_crash h1⟩
    · cases h1
  case LeftParen =>
    rcases Res.bind_eq_crash h with h1 | ⟨p1, hg, h1⟩
    · exact ⟨tk, List.suffix_refl _, get_next_token_crash h1⟩
    · have hs1 := get_next_token_ok_suffix hg
      rcases Res.bind_eq_crash h1 with h2 | ⟨ep, hga1, h2⟩
      · obtain ⟨st, hst, hcr⟩ := hgaC _ _ h2
        exact ⟨st, hst.trans hs1, hcr⟩
      · obtain ⟨_, hs2⟩ := hga _ _ _ hga1
        rcases Res.bind_eq_crash h2 with h3 | ⟨p3, hcp, h3⟩
        · exact ⟨ep.2.tokenizer, (List.suffix_refl _).trans (hs2.trans hs1),
            check_paren_crash h3⟩
        · have hs3 : p3.tokenizer <:+ ep.2.tokenizer := by
            unfold check_paren at hcp
            split at hcp
            · exact get_next_token_ok_suffix hcp
            · cases hcp
          split at h3
          · rcases Res.bind_eq_crash h3 with h4 | ⟨rp, _, h4⟩
            · obtain ⟨st, hst, hcr⟩ := hgaC _ _ h4
              exact ⟨st, hst.trans (hs3.trans (hs2.trans hs1)), hcr⟩
            · cases h4
          · cases h3
  all_goals cases h

theorem convert_crash {ga : GenAst}
    (hgaC : ∀ (prec : OperPrec) (q : Parser), ga prec q = .crash →
      ∃ st, st <:+ q.tokenizer ∧ (nextToken st).1 = .crash) :
    ∀ {left : Node} {p : Parser}, convert_token_to_node ga left p = .crash →
      ∃ st, st <:+ p.tokenizer ∧ (nextToken st).1 = .crash := by
  intro left p h
  obtain ⟨tk, ct⟩ := p
  cases ct <;> simp only [convert_token_to_node] at h
  case Num i => cases h
  all_goals first
    | cases h
    | (rcases Res.bind_eq_crash h with h1 | ⟨p1, hg, h1⟩
       · exact ⟨tk, List.suffix_refl _, get_next_token_crash h1⟩
       · have hs1 := get_next_token_ok_suffix hg
         rcases Res.bind_eq_crash h1 with h2 | ⟨rp, _, h2⟩
         · obtain ⟨st, hst, hcr⟩ := hgaC _ _ h2
           exact ⟨st, hst.trans hs1, hcr⟩
         · cases h2)

theorem ga_loop_crash {ga : GenAst}
    (hga : ∀ (prec : OperPrec) (q : Parser) (r : Node × Parser),
      ga prec q = .ok r → r.2.meas < q.meas ∧ r.2.tokenizer <:+ q.tokenizer)
    (hgaC : ∀ (prec : OperPrec) (q : Parser), ga prec q = .crash →
      ∃ st, st <:+ q.tokenizer ∧ (nextToken st).1 = .crash) :
    ∀ (f : Nat) {prec : OperPrec} {left : Node} {p : Parser},
      ga_loop ga f prec left p = .crash →
      ∃ st, st <:+ p.tokenizer ∧ (nextToken st).1 = .crash := by
  intro f
  induction f with
  | zero => intro _ _ _ h; cases h
  | succ f ih =>
    intro prec left p h
    simp only [ga_loop] at h
    split at h
    · split at h
      · cases h
      · rcases Res.bind_eq_crash h with h1 | ⟨rp, hc, h1⟩
        · exact convert_crash hgaC h1
        · obtain ⟨_, hs1⟩ := convert_ok hga hc
          obtain ⟨st, hst, hcr⟩ := ih h1
          exact ⟨st, hst.trans hs1, hcr⟩
    · cases h

/-- A fatal abort of the whole parse traces back to the tokenizer: some
suffix of the remaining input begins a malformed numeric literal. -/
theorem generate_ast_crash :
    ∀ (fuel : Nat) {oper_prec : OperPrec} {p : Parser},
      generate_ast fuel oper_prec p = .crash →
      ∃ st, st <:+ p.tokenizer ∧ (nextToken st).1 = .crash := by
  intro fuel
  induction fuel with
  | zero => intro _ _ h; cases h
  | succ f ih =>
    intro prec p h
    rw [generate_ast_succ] at h
    rcases Res.bind_eq_crash h with h1 | ⟨lp, hpn, h1⟩
    · exact parse_number_crash (generate_ast_ok f) (fun _ q hq => ih hq) h1
    · obtain ⟨_, hs1⟩ := parse_number_ok (generate_ast_ok f) hpn
      obtain ⟨st, hst, hcr⟩ :=
        ga_loop_crash (generate_ast_ok f) (fun _ q hq => ih hq) f h1
      exact ⟨st, hst.trans hs1, hcr⟩

theorem parseStr_crash {fuel : Nat} {s : String} (h : parseStr fuel s = .crash) :
    ∃ st, st <:+ s.data ∧ (nextToken st).1 = .crash := by
  unfold parseStr at h
  rcases Res.bind_eq_crash h with h1 | ⟨p0, hnew, h1⟩
  · exact ⟨s.data, List.suffix_refl _, new_crash h1⟩
  · have hs0 := new_ok_suffix hnew
    obtain ⟨st, hst, hcr⟩ := generate_ast_crash fuel h1
    exact ⟨st, hst.trans hs0, hcr⟩

/-- Evaluation is the structural fold and never produces an error. -/
theorem eval_ok : ∀ e : Node, eval e = Except.ok (foldNode e) := by
  intro e
  induction e <;> simp [eval, foldNode, *] <;> rfl

section ConcreteRuns

attribute [local semireducible] Rat.add Rat.mul Rat.sub Rat.inv

example : nextToken ['3', '4'] = (.tok (.Num 34), []) := by decide

example : nextToken ['3', '4', '.', '5'] = (.tok (.Num (69/2)), []) := by decide

example : parseStr 12 "1+2" = .ok (.Add (.Number 1) (.Number 2), ⟨[], .EoF⟩) := by
  decide

example : evaluate 16 "3+2-1*5/4" = .ok (15/4) := by decide

example : evaluate 16 "1+2-3" = .ok 0 := by decide

/-- Claim C1, counterexample: on the input `"2^3^2"` parse followed by
evaluate returns `64.0`, not `512.0` — the claim's asserted result is
false on the code. -/
theorem c1_counterexample :
    evaluate 16 "2^3^2" = .ok 64 ∧ Res.ok (64 : ℚ) ≠ Res.ok (512 : ℚ) := by
  constructor
  · decide
  · decide

/-- Claim C1, amended: exponentiation is left-associative: for the input
`"2^3^2"`, parse builds the tree `(2^3)^2` and evaluate returns `64.0`,
because each binary operator recurses for its right operand with that
operator's own precedence as the floor while the climbing loop only
continues on strictly greater precedence, so a chained `^` at equal
precedence terminates the recursion and is folded on the left. -/
theorem c1_amended :
    parseStr 16 "2^3^2" =
      .ok (.Caret (.Caret (.Number 2) (.Number 3)) (.Number 2), ⟨[], .EoF⟩) ∧
    evaluate 16 "2^3^2" = .ok 64 := by
  constructor
  · decide
  · decide

/-- Claim C2: unary negation binds tighter than every binary operator:
`"-2^2"` parses as `(-2)^2` and evaluates to `4.0`, because a leading `-`
parses its operand at the unary-negative precedence floor, the highest
level. -/
theorem c2_unary_binds_tightest :
    parseStr 16 "-2^2" =
      .ok (.Caret (.Negative (.Number 2)) (.Number 2), ⟨[], .EoF⟩) ∧
    evaluate 16 "-2^2" = .ok 4 ∧ Res.ok (4 : ℚ) ≠ Res.ok (-4 : ℚ) := by
  refine ⟨by decide, by decide, by decide⟩

/-- Claim C3, counterexample: on the input `"2)"` parse succeeds (with the
tree `Number 2`) while the lookahead buffer still holds the unconsumed
`RightParen` token, not the end-of-input marker — so parse does not
succeed only when the lookahead holds the end-marker. -/
theorem c3_counterexample :
    parseStr 16 "2)" = .ok (.Number 2, ⟨[], .RightParen⟩) ∧
    Token.RightParen ≠ Token.EoF := by
  exact ⟨by decide, by decide⟩

/-- Claim C4, counterexample: on the input `"1"`, the first call yields
the numeric token, and the second AND third calls both yield the
end-of-input marker — the end-marker is produced on every call at end of
input, not exactly once. -/
theorem c4_counterexample :
    (nextToken "1".data).1 = .tok (.Num 1) ∧
    (nextToken (nextToken "1".data).2).1 = .tok .EoF ∧
    (nextToken (nextToken (nextToken "1".data).2).2).1 = .tok .EoF := by
  refine ⟨by decide, by decide, by decide⟩

/-- Claim C7: two adjacent parenthesised groups are combined by implicit
multiplication: `"(2)(3)"` parses as a multiply node of the two groups and
evaluates to `6.0`. -/
theorem c7_implicit_multiplication :
    parseStr 16 "(2)(3)" =
      .ok (.Multiply (.Number 2) (.Number 3), ⟨[], .EoF⟩) ∧
    evaluate 16 "(2)(3)" = .ok 6 := by
  exact ⟨by decide, by decide⟩

/-- Claim C3, amended: parse can succeed with an unconsumed non-end-marker
token left in the lookahead (trailing tokens are left unexamined); what
does hold is that on every successful parse the final lookahead token's
precedence level is default/zero — it is never a binary-operator token. -/
theorem c3_amended :
    ∀ (fuel : Nat) (s : String) (r : Node × Parser),
      parseStr fuel s = .ok r →
      r.2.current_token.get_oper_prec = .DefaultZero := by
  intro fuel s r h
  unfold parseStr at h
  obtain ⟨p0, hnew, h⟩ := Res.bind_eq_ok h
  unfold Parser.parse at h
  have key : ∀ x : OperPrec, OperPrec.lt .DefaultZero x = false → x = .DefaultZero := by
    intro x
    cases x <;> simp [OperPrec.lt, OperPrec.toNat]
  exact key _ (generate_ast_exit fuel h)

theorem c3_witness :
    parseStr 16 "2)" = .ok (.Number 2, ⟨[], .RightParen⟩) ∧
    (Parser.mk [] .RightParen).current_token.get_oper_prec = .DefaultZero := by
  refine ⟨by decide, ?_⟩
  exact c3_amended 16 "2)" (.Number 2, ⟨[], .RightParen⟩) (by decide)

/-- Claim C4, amended: the tokenizer yields the end-of-input marker
exactly when the remaining input is empty, and it leaves the empty state
unchanged — so once the input is consumed, every subsequent call yields
the end-marker again (it is produced on every call at end of input, not
once). -/
theorem c4_amended :
    (∀ cs : List Char, (nextToken cs).1 = .tok .EoF ↔ cs = []) ∧
    nextToken [] = (.tok .EoF, []) :=
  ⟨nextToken_EoF_iff, rfl⟩

theorem c4_witness :
    ((nextToken ['1']).1 = .tok .EoF ↔ ['1'] = ([] : List Char)) ∧
    nextToken [] = (.tok .EoF, []) :=
  ⟨c4_amended.1 ['1'], c4_amended.2⟩

/-- Claim C5: a numeric literal whose accumulated text is not a valid
64-bit float (such as `"1.2.3"`) makes tokenization abort fatally
(`crash`), and this is the only fatal abort: whenever the parsing
pipeline crashes, some suffix of the input starts a numeric literal whose
accumulated text fails float parsing; every other failure is a
recoverable error value. -/
theorem c5_fatal_malformed :
    nextToken "1.2.3".data = (.crash, []) ∧
    evaluate 16 "1.2.3" = .crash ∧
    (∀ (fuel : Nat) (s : String), parseStr fuel s = .crash →
      ∃ st, st <:+ s.data ∧ ∃ c rest txt rem, st = c :: rest ∧
        c.isDigit = true ∧ scanNumber [c] rest = (some txt, rem) ∧
        parseF64 txt = none) := by
  refine ⟨by decide, by decide, ?_⟩
  intro fuel s h
  obtain ⟨st, hst, hcr⟩ := parseStr_crash h
  exact ⟨st, hst, nextToken_crash_shape hcr⟩

theorem c5_witness :
    ∃ st, st <:+ "1.2.3".data ∧ ∃ c rest txt rem, st = c :: rest ∧
      c.isDigit = true ∧ scanNumber [c] rest = (some txt, rem) ∧
      parseF64 txt = none :=
  c5_fatal_malformed.2.2 16 "1.2.3" (by decide)

/-- Claim C6: a numeric literal immediately followed by an open
parenthesis makes the tokenizer signal "no token" (the input is rejected
at the lexical layer), and the parser then reports the invalid-character
error — `"3("` is never interpreted as a multiplication. -/
theorem c6_literal_then_paren :
    (∀ (c : Char) (ds rest : List Char), c.isDigit = true →
      (∀ x ∈ ds, x.isDigit = true ∨ x = '.') →
      (nextToken (c :: (ds ++ '(' :: rest))).1 = .noTok) ∧
    parseStr 16 "3(" = .err (.InvalidOperator "Invalid character") := by
  constructor
  · intro c ds rest hc hds
    simp [nextToken, hc, scanNumber_paren ds [c] rest hds]
  · decide

theorem c6_witness :
    (nextToken ('3' :: ([] ++ '(' :: []))).1 = .noTok ∧
    parseStr 16 "3(" = .err (.InvalidOperator "Invalid character") :=
  ⟨c6_literal_then_paren.1 '3' [] [] (by decide) (by simp),
   c6_literal_then_paren.2⟩

/-- Claim C8: for every input, with fuel exceeding the input length the
embedded recursion of `generate_ast` never exhausts its fuel (the Rust
mutual recursion is well-founded, each step consuming input tokens); on a
successful parse, evaluation returns the structural-fold value (a number,
never an error); and the only possible abort is the documented
malformed-numeral crash of the tokenizer. -/
theorem c8_termination :
    ∀ (s : String) (fuel : Nat), s.data.length + 2 ≤ fuel →
      parseStr fuel s ≠ .outOfFuel ∧
      (∀ r : Node × Parser, parseStr fuel s = .ok r →
        eval r.1 = Except.ok (foldNode r.1)) ∧
      (parseStr fuel s = .crash →
        ∃ st, st <:+ s.data ∧ (nextToken st).1 = .crash) := by
  intro s fuel hf
  refine ⟨?_, fun r _ => eval_ok r.1, fun h => parseStr_crash h⟩
  intro h
  unfold parseStr at h
  rcases Res.bind_eq_outOfFuel h with h1 | ⟨p0, hnew, h1⟩
  · exact new_ne_outOfFuel _ h1
  · have hm := new_ok_meas hnew
    unfold Parser.parse at h1
    exact generate_ast_no_fuel fuel (by omega) h1

theorem c8_witness :
    "1+2".data.length + 2 ≤ 16 ∧ parseStr 16 "1+2" ≠ .outOfFuel :=
  ⟨by decide, (c8_termination "1+2" 16 (by decide)).1⟩

/-- Claim C9: for every expression tree, `eval` returns `Ok` of the
structural fold — a leaf yields its stored value, a negation negates its
child's value, and each binary node applies the corresponding operation
(with `^` as real-exponent power) to its children's values — and no
evaluation step ever returns an error. -/
theorem c9_eval_structural_fold :
    ∀ e : Node, eval e = Except.ok (foldNode e) :=
  eval_ok

/-- Claim C10: the fallback "Please enter a valid operator" branch of
`convert_token_to_node` is unreachable: a token's precedence strictly
exceeds a floor only for the five binary-operator tokens, each handled by
a dedicated arm, so `generate_ast` never returns the fallback error. -/
theorem c10_fallback_unreachable :
    (∀ (op : OperPrec) (t : Token), OperPrec.lt op t.get_oper_prec = true →
      t = .Add ∨ t = .Subtract ∨ t = .Multiply ∨ t = .Divide ∨ t = .Caret) ∧
    (∀ (fuel : Nat) (oper_prec : OperPrec) (p : Parser) (t : Token),
      generate_ast fuel oper_prec p ≠ .err (.InvalidOperator (fallbackMsg t))) := by
  refine ⟨fun _ _ h => token_of_lt h, ?_⟩
  intro fuel prec p t h
  rcases generate_ast_err fuel h with h1 | h1 | ⟨a, b, h1⟩
  · exact fallbackMsg_ne_invalid t (by injection h1)
  · cases h1
  · exact fallbackMsg_ne_expected t a b (by injection h1)

theorem c10_witness :
    (Token.Caret = .Add ∨ Token.Caret = .Subtract ∨ Token.Caret = .Multiply ∨
      Token.Caret = .Divide ∨ Token.Caret = .Caret) ∧
    generate_ast 4 .DefaultZero ⟨[], .EoF⟩ ≠
      .err (.InvalidOperator (fallbackMsg .EoF)) :=
  ⟨c10_fallback_unreachable.1 .DefaultZero .Caret (by decide),
   c10_fallback_unreachable.2 4 .DefaultZero ⟨[], .EoF⟩ .EoF⟩

end ConcreteRuns

